import Mathlib

/-!
A shallow embedding of the timed-segment subtitle pipeline of the
Perfecto-AI repository (files `generate_timed_segments.py` and `runner.py`),
together with proofs of the specification claims about it.

Python strings are modelled as `List Char`; Python floats are modelled as
exact rationals `ℚ` (arithmetic in the source is plain `+ - * /` plus
`round`, `//` and `max/min`, all of which are exact here); external
collaborators (clause breaker, SSML converter, Polly synthesis, audio mixing,
`AudioFileClip` duration probing, and the float-valued `_extract_pitch_value`)
are opaque function parameters, and filesystem side effects are recorded in an
explicit effect trace.
-/

namespace Perfecto

/-- Unicode whitespace, as recognised by Python's `str.strip()`, `str.split()`
and the regex class `\s` on `str` patterns. -/
def isPySpace (c : Char) : Bool :=
  c = ' ' || c = '\t' || c = '\n' || c = '\r' || c = '\x0b' || c = '\x0c' ||
  c = '\x1c' || c = '\x1d' || c = '\x1e' || c = '\x1f' || c = '\x85' ||
  c = '\u00A0' || c = '\u1680' || (('\u2000' ≤ c) && (c ≤ '\u200A')) ||
  c = '\u2028' || c = '\u2029' || c = '\u202F' || c = '\u205F' || c = '\u3000'

/-- The non-breaking-space placeholder `NBSP = "\u00A0"`. -/
def NBSP : Char := '\u00A0'

/-- Python `s.strip()`: drop leading and trailing whitespace. -/
def pyStrip (l : List Char) : List Char :=
  ((l.dropWhile isPySpace).reverse.dropWhile isPySpace).reverse

/-- Python `s.lstrip()` (the left half of `strip`). -/
def lstripWs (l : List Char) : List Char := l.dropWhile isPySpace

/-- Python `s.rstrip()` (the right half of `strip`). -/
def rstripWs (l : List Char) : List Char :=
  (l.reverse.dropWhile isPySpace).reverse

/-- Adjacent characters are not both whitespace (the shape of a string with
no whitespace run of length ≥ 2). -/
def notBothWs (a b : Char) : Prop :=
  ¬(isPySpace a = true ∧ isPySpace b = true)

/-- The two replacements `s.replace("\n", " ").replace("\r", " ")`. -/
def replNl (c : Char) : Char :=
  if c = '\n' then ' ' else if c = '\r' then ' ' else c

/-- Character class kept by `_drop_special_except_q`'s regex
`[^A-Za-z0-9가-힣\s?]` (everything outside it is removed). -/
def isAllowedChar (c : Char) : Bool :=
  (('A' ≤ c) && (c ≤ 'Z')) || (('a' ≤ c) && (c ≤ 'z')) ||
  (('0' ≤ c) && (c ≤ '9')) || (('가' ≤ c) && (c ≤ '힣')) ||
  isPySpace c || c = '?'

/-- `_drop_special_except_q`: `re.sub(r"[^A-Za-z0-9가-힣\s?]", "", s)`. -/
def dropSpecialExceptQ (s : List Char) : List Char :=
  s.filter isAllowedChar

/-- Worker for `re.sub(r"\s{2,}", " ", s)`: a maximal run of two or more
whitespace characters becomes a single `' '`; a lone whitespace character is
kept as it is.  The `Option Char` state holds a pending whitespace character
whose run length is not yet known (`some ' '` once the run has length ≥ 2). -/
def collapseWsAux : Option Char → List Char → List Char
  | none, [] => []
  | some p, [] => [p]
  | none, c :: rest =>
    if isPySpace c then collapseWsAux (some c) rest
    else c :: collapseWsAux none rest
  | some p, c :: rest =>
    if isPySpace c then collapseWsAux (some ' ') rest
    else p :: c :: collapseWsAux none rest

/-- `re.sub(r"\s{2,}", " ", s)`. -/
def collapseWs (l : List Char) : List Char :=
  collapseWsAux none l

/-- `sanitize_ass_text` from `generate_timed_segments.py`:
newlines to spaces, strip, drop special characters except `?`,
collapse whitespace runs, strip again, and substitute the non-breaking-space
placeholder if the result is empty (`return s or NBSP`). -/
def sanitize_ass_text (s : List Char) : List Char :=
  let s1 := pyStrip (s.map replNl)
  let s2 := dropSpecialExceptQ s1
  let s3 := pyStrip (collapseWs s2)
  if s3.isEmpty then [NBSP] else s3

/-- Worker for Python `str.split()` (split on whitespace runs, dropping
empty pieces); `acc` holds the current word, reversed. -/
def pySplitAux : List Char → List Char → List (List Char)
  | acc, [] => if acc.isEmpty then [] else [acc.reverse]
  | acc, c :: rest =>
    if isPySpace c then
      if acc.isEmpty then pySplitAux [] rest
      else acc.reverse :: pySplitAux [] rest
    else pySplitAux (c :: acc) rest

/-- Python `t.split()`. -/
def pySplit (l : List Char) : List (List Char) :=
  pySplitAux [] l

/-- The greedy word loop of `prepare_text_for_ass`:
`while words and len(" ".join(left + [words[0]])) <= biline_target:
left.append(words.pop(0))`.  Returns the final `left` and remaining `words`. -/
def greedyLeft (biline_target : Nat) :
    List (List Char) → List (List Char) → List (List Char) × List (List Char)
  | left, [] => (left, [])
  | left, w :: rest =>
    if (List.intercalate [' '] (left ++ [w])).length ≤ biline_target then
      greedyLeft biline_target (left ++ [w]) rest
    else (left, w :: rest)

/-- `prepare_text_for_ass` from `generate_timed_segments.py`.  The two-line
break marker `r"\N"` is the two characters `'\\'` and `'N'`. -/
def prepare_text_for_ass (text : List Char)
    (one_line_threshold : Nat := 14) (biline_target : Nat := 16) : List Char :=
  let t := sanitize_ass_text text
  if t.length ≤ one_line_threshold then t
  else
    let lw := greedyLeft biline_target [] (pySplit t)
    let right := pyStrip (List.intercalate [' '] lw.2)
    if lw.1.isEmpty || right.isEmpty then
      let mid := max 1 (t.length / 2)
      t.take mid ++ '\\' :: 'N' :: t.drop mid
    else
      List.intercalate [' '] lw.1 ++ '\\' :: 'N' :: right

/-- Python `max(a, b)` on floats, here exact rationals (kept as an `if` so
that the kernel can evaluate it; extensionally equal to `max`). -/
def pyMax (a b : ℚ) : ℚ := if a ≤ b then b else a

/-- Python `min(a, b)` on floats, here exact rationals. -/
def pyMin (a b : ℚ) : ℚ := if a ≤ b then a else b

/-- Python `round` to the nearest integer, ties to even (used on a
non-negative argument in `_fmt_time`). -/
def roundHalfEven (q : ℚ) : ℤ :=
  let f := q.floor
  let r := q - (f : ℚ)
  if r < 1/2 then f
  else if 1/2 < r then f + 1
  else if f % 2 = 0 then f else f + 1

/-- Python `round(x, 3)` (millisecond rounding used on segment bounds). -/
def round3 (q : ℚ) : ℚ :=
  (roundHalfEven (q * 1000) : ℚ) / 1000

/-- Python `f"{n:02d}"` for a natural number. -/
def pad2 (n : Nat) : List Char :=
  if n < 10 then '0' :: (Nat.repr n).toList else (Nat.repr n).toList

/-- `_fmt_time` from `generate_timed_segments.py`, over exact rationals:
clamp to non-negative, split into hours, minutes, seconds (all by floor,
the argument being non-negative) and centiseconds (by `round`), and format
as `f"{h:d}:{m:02d}:{s:02d}.{cs:02d}"`. -/
def fmt_time (t : ℚ) : List Char :=
  let t0 := pyMax 0 t
  let h : Nat := (t0 / 3600).floor.toNat
  let t1 := t0 - (h : ℚ) * 3600
  let m : Nat := (t1 / 60).floor.toNat
  let t2 := t1 - (m : ℚ) * 60
  let s : Nat := t2.floor.toNat
  let cs : Nat := (roundHalfEven ((t2 - (s : ℚ)) * 100)).toNat
  (Nat.repr h).toList ++ ':' :: pad2 m ++ ':' :: pad2 s ++ '.' :: pad2 cs

/-- `_pitch_to_hex` from `generate_timed_segments.py`. -/
def pitch_to_hex (p : Option ℚ) : Option (List Char) :=
  match p with
  | none => none
  | some x =>
    if 8 ≤ x then some ("33CCFF".toList)
    else if 6 ≤ x then some ("55E0FF".toList)
    else if 4 ≤ x then some ("77F5FF".toList)
    else if x ≤ -8 then some ("7777FF".toList)
    else if x ≤ -6 then some ("8890FF".toList)
    else if x ≤ -4 then some ("99AAFF".toList)
    else none

/-- Modelled from the spec: §4.2 writes the duration fallback as
`clamp(text_length / 7.0, 0.6, 8.0)`; this is the standard clamp of `x`
into the interval `[lo, hi]`, for comparison against the source's
`max(0.6, min(8.0, len(text) / 7.0))`. -/
def spec_clamp (x lo hi : ℚ) : ℚ :=
  min hi (max lo x)

/-- The per-unit duration of step 4 of `generate_subtitle_from_script`:
the measured `AudioFileClip` duration when the probe succeeds, otherwise the
estimate `max(0.6, min(8.0, len(text) / 7.0))`. -/
def unitDuration (measured : Option ℚ) (text : List Char) : ℚ :=
  match measured with
  | some d => d
  | none => pyMax (6/10) (pyMin 8 ((text.length : ℚ) / 7))

/-- A timed segment dictionary, as built in step 4 of
`generate_subtitle_from_script` (`stop` models the Python key `"end"`). -/
structure Segment where
  start : ℚ
  stop : ℚ
  text : List Char
  ssml : List Char
  pitch : Option ℚ
deriving DecidableEq

/-- The timing-accumulation loop of `generate_subtitle_from_script`
(step 4): a running clock `cur`, per unit `start, end = cur, cur + dur`,
bounds stored rounded to 3 decimals, `cur = end` (unrounded).  Each unit is
`(measured duration?, text, ssml)`; `extract` stands for the float-valued
`_extract_pitch_value`. -/
def accumSegments (extract : List Char → Option ℚ) :
    ℚ → List (Option ℚ × List Char × List Char) → List Segment
  | _, [] => []
  | cur, (md, text, ssml) :: rest =>
    let dur := unitDuration md text
    let e := cur + dur
    { start := round3 cur, stop := round3 e, text := text, ssml := ssml,
      pitch := extract ssml } :: accumSegments extract e rest

/-- Side effects of the pipeline: external collaborator calls and
filesystem operations. -/
inductive PipeEffect where
  | callBreath : PipeEffect
  | callSSML : PipeEffect
  | callSynth : PipeEffect
  | callMix : PipeEffect
  | mkdirE : List Char → PipeEffect
  | writeE : List Char → List Char → PipeEffect
deriving DecidableEq

/-- `s.rstrip("/")`. -/
def rstripSlashes (l : List Char) : List Char :=
  (l.reverse.dropWhile (fun c => c = '/')).reverse

/-- `os.path.dirname` (POSIX): everything before the last `/`, with trailing
slashes stripped unless the head is all slashes. -/
def dirnameP (p : List Char) : List Char :=
  let i := p.length - (p.reverse.takeWhile (fun c => c ≠ '/')).length
  let hd := p.take i
  if hd.isEmpty then hd
  else if hd.all (fun c => c = '/') then hd
  else rstripSlashes hd

/-- `os.path.dirname(path) or "."` as used by `generate_ass_subtitle`. -/
def dirname_or_dot (p : List Char) : List Char :=
  let d := dirnameP p
  if d.isEmpty then ['.'] else d

/-- The `educational` template's style line. -/
def eduStyle : List Char :=
  ("Style: Default,Pretendard-Bold,56,&H00FFFFFF,&H000000FF,&H00000000,&H00000000,"
    ++ "-1,0,0,0,100,100,0,0,1,2,2,10,10,40,1").toList

/-- The `educational` template's anchor tag `r"\x7b\an2\x7d"`. -/
def eduPos : List Char := ("\x7b\\an2\x7d").toList

/-- The `center` template's style line. -/
def centerStyle : List Char :=
  ("Style: Default,Pretendard-Bold,64,&H00FFFFFF,&H000000FF,&H00000000,&H00000000,"
    ++ "-1,0,0,0,100,100,0,0,5,2,2,10,10,40,1").toList

/-- The `center` template's anchor tag `r"\x7b\an5\x7d"`. -/
def centerPos : List Char := ("\x7b\\an5\x7d").toList

/-- `SUBTITLE_TEMPLATES.get(template_name, SUBTITLE_TEMPLATES["educational"])`:
the `(Style, Pos)` pair, defaulting to `educational` on unknown names. -/
def subtitle_template (name : List Char) : List Char × List Char :=
  if name = ("educational").toList then (eduStyle, eduPos)
  else if name = ("center").toList then (centerStyle, centerPos)
  else (eduStyle, eduPos)

/-- `_ass_header`: the fixed `[Script Info]`/`[V4+ Styles]`/`[Events]`
preamble around the template's style line. -/
def ass_header (style_line : List Char) : List Char :=
  ("[Script Info]\nScriptType: v4.00+\nCollisions: Normal\nPlayResX: 1080\n"
    ++ "PlayResY: 1920\nScaledBorderAndShadow: yes\n\n[V4+ Styles]\n"
    ++ "Format: Name, Fontname, Fontsize, PrimaryColour, SecondaryColour, "
    ++ "OutlineColour, BackColour, Bold, Italic, Underline, StrikeOut, "
    ++ "ScaleX, ScaleY, Spacing, Angle, BorderStyle, Outline, Shadow, "
    ++ "Alignment, MarginL, MarginR, MarginV, Encoding\n").toList
  ++ style_line
  ++ ("\n\n[Events]\nFormat: Layer, Start, End, Style, Name, MarginL, "
    ++ "MarginR, MarginV, Effect, Text\n").toList

/-- `re.sub(r"[.!…]+$", "", raw)`: drop a trailing run of `.`, `!`, `…`. -/
def stripTrailingPunct (l : List Char) : List Char :=
  (l.reverse.dropWhile (fun c => c = '.' || c = '!' || c = '…')).reverse

/-- One iteration of the dialogue loop of `generate_ass_subtitle`:
format the bounds, strip (and, on the last cue when requested, drop trailing
punctuation from) the text, sanitize, wrap when over `max_chars_per_line`,
and prepend the anchor and the optional pitch-colour tag. -/
def dialogue_line (extract : List Char → Option ℚ) (stripThis : Bool)
    (max_chars_per_line max_lines : Nat) (anchor : List Char)
    (seg : Segment) : List Char :=
  let s := fmt_time seg.start
  let e := fmt_time seg.stop
  let raw0 := pyStrip seg.text
  let raw := if stripThis then pyStrip (stripTrailingPunct raw0) else raw0
  let txt0 := sanitize_ass_text raw
  let txt :=
    if max_lines = 2 ∧ max_chars_per_line < txt0.length then
      prepare_text_for_ass txt0 max_chars_per_line (max_chars_per_line + 2)
    else txt0
  let color_tag :=
    match pitch_to_hex (extract seg.ssml) with
    | some hex => ("\x7b\\c&H").toList ++ hex ++ ("&\x7d").toList
    | none => []
  let content := anchor ++ color_tag ++ txt
  ("Dialogue: 0,").toList ++ s ++ ',' :: e
    ++ (",Default,,0,0,0,,").toList ++ content

/-- The dialogue lines of all segments; `strip_trailing_punct_last` applies
only to the final one (`i == len(segments) - 1`). -/
def dialogueLines (extract : List Char → Option ℚ) (strip_last : Bool)
    (max_chars_per_line max_lines : Nat) (anchor : List Char) :
    List Segment → List (List Char)
  | [] => []
  | [seg] => [dialogue_line extract strip_last max_chars_per_line max_lines anchor seg]
  | seg :: seg2 :: rest =>
    dialogue_line extract false max_chars_per_line max_lines anchor seg
      :: dialogueLines extract strip_last max_chars_per_line max_lines anchor (seg2 :: rest)

/-- The full text written by `generate_ass_subtitle`:
`"\n".join([_ass_header(style_line)] + dialogue_lines)`. -/
def assFileContent (extract : List Char → Option ℚ) (segments : List Segment)
    (template_name : List Char) (strip_last : Bool)
    (max_chars_per_line max_lines : Nat) : List Char :=
  let tmpl := subtitle_template template_name
  List.intercalate ['\n']
    (ass_header tmpl.1
      :: dialogueLines extract strip_last max_chars_per_line max_lines tmpl.2 segments)

/-- Result of `generate_ass_subtitle`: the returned path, the segment list as
it stands after the call (the source only reads `seg.get(...)`, so the
statement-by-statement translation threads it through unchanged), and the
effect trace (one `makedirs` on the parent, one file write). -/
structure EmitResult where
  ret : List Char
  segmentsAfter : List Segment
  effects : List PipeEffect
deriving DecidableEq

/-- `generate_ass_subtitle` from `generate_timed_segments.py`. -/
def generate_ass_subtitle (extract : List Char → Option ℚ)
    (segments : List Segment) (ass_path : List Char)
    (template_name : List Char)
    (strip_trailing_punct_last : Bool := true)
    (max_chars_per_line : Nat := 14) (max_lines : Nat := 2) : EmitResult :=
  { ret := ass_path
    segmentsAfter := segments
    effects := [PipeEffect.mkdirE (dirname_or_dot ass_path),
      PipeEffect.writeE ass_path
        (assFileContent extract segments template_name strip_trailing_punct_last
          max_chars_per_line max_lines)] }

/-- Step 1 of `generate_subtitle_from_script`: either the stripped, non-blank
entries of a truthy `pre_split_lines`, or the clause breaker's output. -/
def derive_clause_lines (pre_split_lines : Option (List (List Char)))
    (breath_result : List (List Char)) : List (List Char) :=
  match pre_split_lines with
  | some l =>
    if l.isEmpty then breath_result
    else (l.map pyStrip).filter (fun s => !s.isEmpty)
  | none => breath_result

/-- Python truthiness of the `pre_split_lines` argument. -/
def pre_split_truthy : Option (List (List Char)) → Bool
  | some l => !l.isEmpty
  | none => false

/-- Python `zip` over three lists (truncating to the shortest). -/
def zip3L : List α → List β → List γ → List (α × β × γ)
  | a :: as_, b :: bs, c :: cs => (a, b, c) :: zip3L as_ bs cs
  | _, _, _ => []

/-- Result of `generate_subtitle_from_script`: the returned triple
`(segments, chunk_paths, ass_path)` and the effect trace. -/
structure PipelineResult where
  segments : List Segment
  chunk_paths : List (List Char)
  ass_path : List Char
  effects : List PipeEffect

/-- `generate_subtitle_from_script` from `generate_timed_segments.py`.
External collaborators are parameters: `breath` (clause breaker `B`),
`to_ssml` (SSML conversion `C`), `synth` (Polly synthesis, returning chunk
paths), `measure` (the `AudioFileClip` duration probe; `none` models the
`except` branch), `extract` (`_extract_pitch_value`). -/
def generate_subtitle_from_script (extract : List Char → Option ℚ)
    (breath : List Char → List (List Char))
    (to_ssml : List (List Char) → List (List Char))
    (synth : List (List Char) → List (List Char))
    (measure : List Char → Option ℚ)
    (script_text : List Char) (ass_path : List Char)
    (strip_trailing_punct_last : Bool := true)
    (pre_split_lines : Option (List (List Char)) := none) : PipelineResult :=
  let clause_lines := derive_clause_lines pre_split_lines (breath script_text)
  let eff0 : List PipeEffect :=
    if pre_split_truthy pre_split_lines then [] else [PipeEffect.callBreath]
  if clause_lines.isEmpty then
    { segments := [], chunk_paths := [], ass_path := ass_path, effects := eff0 }
  else
    let ssml_lines := to_ssml clause_lines
    let out_dir := ("assets/_tts_chunks").toList
    let chunk_paths := synth ssml_lines
    let final_mix := ("assets/auto/_mix_audio.mp3").toList
    let units := (zip3L chunk_paths clause_lines ssml_lines).map
      (fun u => (measure u.1, u.2.1, u.2.2))
    let segments := accumSegments extract 0 units
    let emit := generate_ass_subtitle extract segments ass_path
      (("educational").toList) strip_trailing_punct_last 14 2
    { segments := segments
      chunk_paths := chunk_paths
      ass_path := emit.ret
      effects := eff0
        ++ [PipeEffect.callSSML, PipeEffect.mkdirE out_dir, PipeEffect.callSynth,
            PipeEffect.mkdirE (dirname_or_dot final_mix), PipeEffect.callMix]
        ++ emit.effects }

/-- `_distribute_sentence_keywords_to_segments` from `runner.py`. -/
def distribute_sentence_keywords_to_segments
    (keywords : List (List Char)) (n_segments : Nat) : List (List Char) :=
  if n_segments = 0 then []
  else if keywords.isEmpty then
    List.replicate n_segments (("abstract background").toList)
  else
    let s_cnt := max 1 keywords.length
    let base := n_segments / s_cnt
    let rem := n_segments % s_cnt
    let per_sentence_counts :=
      (List.range s_cnt).map (fun i => base + if i < rem then 1 else 0)
    let expanded := (keywords.zip per_sentence_counts).flatMap
      (fun kc => List.replicate kc.2 kc.1)
    if expanded.length < n_segments then
      expanded ++ List.replicate (n_segments - expanded.length) (keywords.getLastD [])
    else if n_segments < expanded.length then expanded.take n_segments
    else expanded

/-! ### Supporting lemmas: stripping and whitespace collapsing -/

/-- The head of a `dropWhile` result does not satisfy the predicate. -/
theorem dropWhile_head_false {p : Char → Bool} :
    ∀ {l : List Char} {c : Char} {t : List Char},
      l.dropWhile p = c :: t → p c = false := by
  intro l
  induction l with
  | nil => intro c t h; simp [List.dropWhile] at h
  | cons a l ih =>
    intro c t h
    rw [List.dropWhile_cons] at h
    split at h
    · exact ih h
    · cases h; simp_all

/-- `dropWhile` is idempotent. -/
theorem dropWhile_idem {p : Char → Bool} (l : List Char) :
    (l.dropWhile p).dropWhile p = l.dropWhile p := by
  cases h : l.dropWhile p with
  | nil => simp
  | cons c t =>
    have hc := dropWhile_head_false h
    rw [List.dropWhile_cons, hc]
    simp

theorem mem_of_mem_dropWhile {p : Char → Bool} {c : Char} {l : List Char}
    (h : c ∈ l.dropWhile p) : c ∈ l := by
  have h2 := List.takeWhile_append_dropWhile p l
  rw [← h2]
  exact List.mem_append_right _ h

theorem pyStrip_eq (l : List Char) : pyStrip l = rstripWs (lstripWs l) := rfl

theorem lstripWs_idem (l : List Char) : lstripWs (lstripWs l) = lstripWs l :=
  dropWhile_idem l

theorem rstripWs_idem (l : List Char) : rstripWs (rstripWs l) = rstripWs l := by
  unfold rstripWs
  rw [List.reverse_reverse, dropWhile_idem]

/-- `rstripWs l` is an initial part of `l`. -/
theorem rstripWs_append (l : List Char) :
    rstripWs l ++ (l.reverse.takeWhile isPySpace).reverse = l := by
  unfold rstripWs
  rw [← List.reverse_append, List.takeWhile_append_dropWhile, List.reverse_reverse]

/-- If `l` is already left-stripped, right-stripping keeps it so. -/
theorem lstripWs_rstripWs (l : List Char) (h : lstripWs l = l) :
    lstripWs (rstripWs l) = rstripWs l := by
  obtain ⟨z, hz⟩ : ∃ z, rstripWs l ++ z = l := ⟨_, rstripWs_append l⟩
  cases hr : rstripWs l with
  | nil => rfl
  | cons c t =>
    have hc : isPySpace c = false := by
      apply dropWhile_head_false (l := l) (t := t ++ z)
      rw [show l.dropWhile isPySpace = l from h, ← hz, hr]
      simp
    unfold lstripWs
    rw [List.dropWhile_cons, hc]
    simp

theorem pyStrip_idem (l : List Char) : pyStrip (pyStrip l) = pyStrip l := by
  rw [pyStrip_eq l, pyStrip_eq (rstripWs (lstripWs l)),
    lstripWs_rstripWs (lstripWs l) (lstripWs_idem l), rstripWs_idem]

theorem mem_of_mem_pyStrip {c : Char} {l : List Char} (h : c ∈ pyStrip l) :
    c ∈ l := by
  unfold pyStrip at h
  rw [List.mem_reverse] at h
  have h1 := mem_of_mem_dropWhile h
  rw [List.mem_reverse] at h1
  exact mem_of_mem_dropWhile h1

theorem notBothWs_symm {a b : Char} (h : notBothWs a b) : notBothWs b a :=
  fun hc => h ⟨hc.2, hc.1⟩

theorem notBothWs_of_left {a b : Char} (h : isPySpace a = false) :
    notBothWs a b := fun hc => by simp [h] at hc

theorem notBothWs_of_right {a b : Char} (h : isPySpace b = false) :
    notBothWs a b := fun hc => by simp [h] at hc

theorem chain'_dropWhile {p : Char → Bool} {R : Char → Char → Prop} :
    ∀ l : List Char, l.Chain' R → (l.dropWhile p).Chain' R := by
  intro l
  induction l with
  | nil => intro h; exact h
  | cons a l ih =>
    intro h
    rw [List.dropWhile_cons]
    split
    · exact ih h.tail
    · exact h

theorem chain'_reverse_of_symm {R : Char → Char → Prop}
    (hs : ∀ a b, R a b → R b a) {l : List Char} (h : l.Chain' R) :
    l.reverse.Chain' R := by
  rw [List.chain'_reverse]
  exact List.Chain'.imp (fun a b hab => hs a b hab) h

theorem chain'_pyStrip {R : Char → Char → Prop} (hs : ∀ a b, R a b → R b a)
    {l : List Char} (h : l.Chain' R) : (pyStrip l).Chain' R :=
  chain'_reverse_of_symm hs
    (chain'_dropWhile _ (chain'_reverse_of_symm hs (chain'_dropWhile _ h)))

/-- The output of the whitespace collapser has no two adjacent whitespace
characters. -/
theorem chain'_collapseWsAux :
    ∀ (l : List Char) (st : Option Char),
      (collapseWsAux st l).Chain' notBothWs := by
  intro l
  induction l with
  | nil =>
    intro st
    cases st <;> simp [collapseWsAux]
  | cons c rest ih =>
    intro st
    cases st with
    | none =>
      by_cases hc : isPySpace c = true
      · rw [show collapseWsAux none (c :: rest) = collapseWsAux (some c) rest by
          simp [collapseWsAux, hc]]
        exact ih (some c)
      · rw [show collapseWsAux none (c :: rest) = c :: collapseWsAux none rest by
          simp [collapseWsAux, hc]]
        rw [List.chain'_cons']
        exact ⟨fun y _ => notBothWs_of_left (Bool.not_eq_true _ ▸ hc), ih none⟩
    | some p =>
      by_cases hc : isPySpace c = true
      · rw [show collapseWsAux (some p) (c :: rest) = collapseWsAux (some ' ') rest by
          simp [collapseWsAux, hc]]
        exact ih (some ' ')
      · rw [show collapseWsAux (some p) (c :: rest) = p :: c :: collapseWsAux none rest by
          simp [collapseWsAux, hc]]
        rw [List.chain'_cons', List.chain'_cons']
        refine ⟨fun y hy => ?_, fun y _ => notBothWs_of_left (by simpa using hc), ih none⟩
        simp at hy
        rw [← hy]
        exact notBothWs_of_right (by simpa using hc)

/-- A string with no whitespace run of length ≥ 2 is a fixed point of the
collapser. -/
theorem collapseWsAux_eq_self :
    ∀ (l : List Char) (st : Option Char),
      (match st with
       | none => l.Chain' notBothWs
       | some p => isPySpace p = true ∧ (p :: l).Chain' notBothWs) →
      collapseWsAux st l = (match st with | none => l | some p => p :: l) := by
  intro l
  induction l with
  | nil =>
    intro st h
    cases st <;> simp [collapseWsAux]
  | cons c rest ih =>
    intro st h
    cases st with
    | none =>
      by_cases hc : isPySpace c = true
      · rw [show collapseWsAux none (c :: rest) = collapseWsAux (some c) rest by
          simp [collapseWsAux, hc]]
        exact ih (some c) ⟨hc, h⟩
      · rw [show collapseWsAux none (c :: rest) = c :: collapseWsAux none rest by
          simp [collapseWsAux, hc]]
        rw [ih none h.tail]
    | some p =>
      obtain ⟨hp, hch⟩ := h
      have hRpc : notBothWs p c := (List.chain'_cons'.mp hch).1 c rfl
      have hc : ¬isPySpace c = true := by
        intro hcc
        exact hRpc ⟨hp, hcc⟩
      rw [show collapseWsAux (some p) (c :: rest) = p :: c :: collapseWsAux none rest by
        simp [collapseWsAux, hc]]
      rw [ih none ((List.chain'_cons'.mp hch).2).tail]

theorem chain'_collapseWs (l : List Char) :
    (collapseWs l).Chain' notBothWs :=
  chain'_collapseWsAux l none

theorem collapseWs_eq_self {l : List Char} (h : l.Chain' notBothWs) :
    collapseWs l = l :=
  collapseWsAux_eq_self l none h

/-- Characters of the collapser's output come from the input, are the
replacement `' '`, or are the pending character. -/
theorem mem_collapseWsAux :
    ∀ (l : List Char) (st : Option Char) (c : Char),
      c ∈ collapseWsAux st l → c ∈ l ∨ c = ' ' ∨ st = some c := by
  intro l
  induction l with
  | nil =>
    intro st c h
    cases st with
    | none => simp [collapseWsAux] at h
    | some p =>
      simp [collapseWsAux] at h
      right; right; rw [h]
  | cons a rest ih =>
    intro st c h
    cases st with
    | none =>
      by_cases ha : isPySpace a = true
      · rw [show collapseWsAux none (a :: rest) = collapseWsAux (some a) rest by
          simp [collapseWsAux, ha]] at h
        rcases ih (some a) c h with h1 | h1 | h1
        · exact Or.inl (List.mem_cons_of_mem a h1)
        · exact Or.inr (Or.inl h1)
        · cases h1; exact Or.inl (List.mem_cons_self a rest)
      · rw [show collapseWsAux none (a :: rest) = a :: collapseWsAux none rest by
          simp [collapseWsAux, ha]] at h
        rcases List.mem_cons.mp h with h1 | h1
        · rw [h1]; exact Or.inl (List.mem_cons_self a rest)
        · rcases ih none c h1 with h2 | h2 | h2
          · exact Or.inl (List.mem_cons_of_mem a h2)
          · exact Or.inr (Or.inl h2)
          · cases h2
    | some p =>
      by_cases ha : isPySpace a = true
      · rw [show collapseWsAux (some p) (a :: rest) = collapseWsAux (some ' ') rest by
          simp [collapseWsAux, ha]] at h
        rcases ih (some ' ') c h with h1 | h1 | h1
        · exact Or.inl (List.mem_cons_of_mem a h1)
        · exact Or.inr (Or.inl h1)
        · cases h1; exact Or.inr (Or.inl rfl)
      · rw [show collapseWsAux (some p) (a :: rest) = p :: a :: collapseWsAux none rest by
          simp [collapseWsAux, ha]] at h
        rcases List.mem_cons.mp h with h1 | h1
        · exact Or.inr (Or.inr (by rw [h1]))
        · rcases List.mem_cons.mp h1 with h2 | h2
          · rw [h2]; exact Or.inl (List.mem_cons_self a rest)
          · rcases ih none c h2 with h3 | h3 | h3
            · exact Or.inl (List.mem_cons_of_mem a h3)
            · exact Or.inr (Or.inl h3)
            · cases h3

theorem mem_collapseWs {c : Char} {l : List Char} (h : c ∈ collapseWs l) :
    c ∈ l ∨ c = ' ' := by
  rcases mem_collapseWsAux l none c h with h1 | h1 | h1
  · exact Or.inl h1
  · exact Or.inr h1
  · cases h1

/-! ### Supporting lemmas: sanitize -/

theorem replNl_self {c : Char} (h1 : c ≠ '\n') (h2 : c ≠ '\r') :
    replNl c = c := by
  unfold replNl
  rw [if_neg h1, if_neg h2]

theorem replNl_ne_nl (d : Char) : replNl d ≠ '\n' := by
  unfold replNl
  split
  · decide
  · split
    · decide
    · assumption

theorem map_replNl_eq_self {x : List Char} (h : ∀ c ∈ x, replNl c = c) :
    x.map replNl = x := by
  induction x with
  | nil => rfl
  | cons a t ih =>
    rw [List.map_cons, h a (List.mem_cons_self a t),
      ih (fun c hc => h c (List.mem_cons_of_mem a hc))]

theorem sanitize_def (s : List Char) :
    sanitize_ass_text s =
      if (pyStrip (collapseWs (dropSpecialExceptQ (pyStrip (s.map replNl))))).isEmpty
      then [NBSP]
      else pyStrip (collapseWs (dropSpecialExceptQ (pyStrip (s.map replNl)))) := rfl

theorem sanitize_branch (s : List Char) :
    sanitize_ass_text s = [NBSP]
      ∨ sanitize_ass_text s
          = pyStrip (collapseWs (dropSpecialExceptQ (pyStrip (s.map replNl)))) := by
  rw [sanitize_def]
  split
  · exact Or.inl rfl
  · exact Or.inr rfl

/-- Any character of `sanitize_ass_text`'s non-placeholder branch value is
an image of `replNl` or `' '`, and is in the allowed class. -/
theorem mem_sanitize_val {s : List Char} {c : Char}
    (h : c ∈ pyStrip (collapseWs (dropSpecialExceptQ (pyStrip (s.map replNl))))) :
    (c ∈ (s.map replNl) ∨ c = ' ') ∧ isAllowedChar c = true := by
  have h1 := mem_of_mem_pyStrip h
  rcases mem_collapseWs h1 with h2 | h2
  · unfold dropSpecialExceptQ at h2
    have ha := List.of_mem_filter h2
    have hm := mem_of_mem_pyStrip (List.mem_of_mem_filter h2)
    exact ⟨Or.inl hm, ha⟩
  · exact ⟨Or.inr h2, by rw [h2]; decide⟩

/-- A string that is a fixed point of every stage of `sanitize_ass_text`
is a fixed point of the whole function. -/
theorem sanitize_of_clean (x : List Char)
    (hrepl : ∀ c ∈ x, replNl c = c)
    (hstrip : pyStrip x = x)
    (hallow : ∀ c ∈ x, isAllowedChar c = true)
    (hch : x.Chain' notBothWs)
    (hne : x ≠ []) :
    sanitize_ass_text x = x := by
  rw [sanitize_def, map_replNl_eq_self hrepl, hstrip]
  unfold dropSpecialExceptQ
  rw [List.filter_eq_self.mpr hallow, collapseWs_eq_self hch, hstrip]
  rw [if_neg (by simpa [List.isEmpty_iff] using hne)]

/-- **C4** — `sanitize_ass_text` is idempotent:
`sanitize(sanitize(x)) = sanitize(x)` for every input string, including the
case where the first application returns the non-breaking-space
placeholder. -/
theorem C4_sanitize_idempotent (s : List Char) :
    sanitize_ass_text (sanitize_ass_text s) = sanitize_ass_text s := by
  rcases sanitize_branch s with h | h
  · rw [h]
    decide
  · rw [h]
    apply sanitize_of_clean
    · intro c hc
      rcases (mem_sanitize_val hc).1 with h2 | h2
      · rcases List.mem_map.mp h2 with ⟨d, _, hd⟩
        apply replNl_self
        · rw [← hd]; exact replNl_ne_nl d
        · rw [← hd]
          unfold replNl
          split
          · decide
          · split
            · decide
            · assumption
      · rw [h2]; decide
    · exact pyStrip_idem _
    · exact fun c hc => (mem_sanitize_val hc).2
    · exact chain'_pyStrip (fun a b => notBothWs_symm) (chain'_collapseWs _)
    · intro hx
      rw [hx] at h
      rw [sanitize_def s, hx] at h
      simp at h

/-- **C8** — `sanitize_ass_text` never returns the empty string (it
substitutes the non-breaking-space placeholder) and its result never
contains a raw newline character. -/
theorem C8_sanitize_nonempty_no_newline (s : List Char) :
    sanitize_ass_text s ≠ [] ∧ '\n' ∉ sanitize_ass_text s := by
  rcases sanitize_branch s with h | h
  · rw [h]
    constructor
    · decide
    · decide
  · constructor
    · intro hx
      rw [h] at hx
      rw [sanitize_def s, hx] at h
      simp at h
    · rw [h]
      intro hc
      rcases (mem_sanitize_val hc).1 with h2 | h2
      · rcases List.mem_map.mp h2 with ⟨d, _, hd⟩
        exact replNl_ne_nl d hd
      · cases h2

/-! ### Claim C3: wrapping -/

/-- **C3 (amended)** — for inputs whose sanitized text is at or below
`one_line_threshold`, `prepare_text_for_ass` returns the sanitized text
unchanged.  (The other half of the original claim — a global
`max(one_line_threshold, biline_target) + small slack` bound on line
length — is false; see the counterexample.) -/
theorem C3_wrap_short_unchanged (text : List Char)
    (one_line_threshold biline_target : Nat)
    (h : (sanitize_ass_text text).length ≤ one_line_threshold) :
    prepare_text_for_ass text one_line_threshold biline_target
      = sanitize_ass_text text := by
  unfold prepare_text_for_ass
  rw [if_pos h]

theorem C3_wrap_short_unchanged_witness :
    prepare_text_for_ass (('a' : Char) :: ['b']) 14 16
      = sanitize_ass_text (('a' : Char) :: ['b']) :=
  C3_wrap_short_unchanged (('a' : Char) :: ['b']) 14 16 (by decide)

set_option maxRecDepth 10000 in
/-- **C3 (counterexample)** — the claimed bound
"no output line longer than `max(one_line_threshold, biline_target)` plus a
small slack" fails: on 200 `'a'`s with the default thresholds 14/16, the
character-midpoint fallback makes the first output line (the part before the
`\x7bbackslash\x7dN` break marker) 100 characters long, 70 beyond
`max 14 16 + 30`. -/
theorem C3_wrap_counterexample :
    ((prepare_text_for_ass (List.replicate 200 'a') 14 16).takeWhile
        (fun c => c ≠ '\\')).length = 100
      ∧ 100 > max 14 16 + 30 := by
  constructor
  · decide
  · decide

/-! ### Claim C1: timing accumulation -/

theorem round3_zero : round3 0 = 0 := by
  with_unfolding_all decide

theorem accumSegments_head_start (extract : List Char → Option ℚ) (cur : ℚ)
    (units : List (Option ℚ × List Char × List Char)) (h : units ≠ []) :
    (accumSegments extract cur units).head?.map Segment.start
      = some (round3 cur) := by
  cases units with
  | nil => simp at h
  | cons u rest =>
    obtain ⟨md, text, ssml⟩ := u
    rfl

theorem accumSegments_adjacent (extract : List Char → Option ℚ) :
    ∀ (units : List (Option ℚ × List Char × List Char)) (cur : ℚ) (i : Nat)
      (hi : i + 1 < (accumSegments extract cur units).length),
      ((accumSegments extract cur units).get ⟨i, by omega⟩).stop
        = ((accumSegments extract cur units).get ⟨i + 1, hi⟩).start := by
  intro units
  induction units with
  | nil =>
    intro cur i hi
    simp [accumSegments] at hi
  | cons u rest ih =>
    intro cur i hi
    obtain ⟨md, text, ssml⟩ := u
    cases i with
    | zero =>
      cases rest with
      | nil => simp [accumSegments] at hi
      | cons v rest2 =>
        obtain ⟨md2, t2, s2⟩ := v
        rfl
    | succ j =>
      exact ih (cur + unitDuration md text) j
        (by simpa [accumSegments] using hi)

/-- In the non-empty branch the orchestrator's segment output is exactly the
timing accumulation, clocked from zero, over the `zip` of chunk paths,
clause lines and SSML lines. -/
theorem generate_segments_eq_accum (extract : List Char → Option ℚ)
    (breath : List Char → List (List Char))
    (to_ssml : List (List Char) → List (List Char))
    (synth : List (List Char) → List (List Char))
    (measure : List Char → Option ℚ)
    (script_text ass_path : List Char) (strip : Bool)
    (pre : Option (List (List Char)))
    (h : ¬(derive_clause_lines pre (breath script_text)).isEmpty = true) :
    (generate_subtitle_from_script extract breath to_ssml synth measure
        script_text ass_path strip pre).segments
      = accumSegments extract 0
          ((zip3L (synth (to_ssml (derive_clause_lines pre (breath script_text))))
              (derive_clause_lines pre (breath script_text))
              (to_ssml (derive_clause_lines pre (breath script_text)))).map
            (fun u => (measure u.1, u.2.1, u.2.2))) := by
  unfold generate_subtitle_from_script
  rw [if_neg h]

/-- **C1** — for every non-empty unit list, the timing accumulation of
`generate_subtitle_from_script` yields segments with
`segments[0].start = 0` and `segments[i].end = segments[i+1].start` for all
adjacent `i` (the stored bounds being the millisecond-rounded values). -/
theorem C1_timing_contiguous (extract : List Char → Option ℚ)
    (units : List (Option ℚ × List Char × List Char)) (h : units ≠ []) :
    (accumSegments extract 0 units).head?.map Segment.start = some 0
      ∧ ∀ (i : Nat) (hi : i + 1 < (accumSegments extract 0 units).length),
          ((accumSegments extract 0 units).get ⟨i, by omega⟩).stop
            = ((accumSegments extract 0 units).get ⟨i + 1, hi⟩).start := by
  refine ⟨?_, accumSegments_adjacent extract units 0⟩
  rw [accumSegments_head_start extract 0 units h, round3_zero]

theorem C1_timing_contiguous_witness :
    (accumSegments (fun _ => none) 0
        [(some 1, ['a'], []), (some 2, ['b'], [])]).head?.map Segment.start
        = some 0
      ∧ ((accumSegments (fun _ => none) 0
          [(some 1, ['a'], []), (some 2, ['b'], [])]).get ⟨0, by decide⟩).stop
        = ((accumSegments (fun _ => none) 0
          [(some 1, ['a'], []), (some 2, ['b'], [])]).get ⟨1, by decide⟩).start :=
  ⟨(C1_timing_contiguous (fun _ => none) _ (by simp)).1,
    (C1_timing_contiguous (fun _ => none) _ (by simp)).2 0 (by decide)⟩

/-! ### Claim C2: time formatting -/

/-- **C2 (code bug)** — the claim that `_fmt_time` always emits exactly two
centisecond digits (shape `H:MM:SS.CC`) fails: at `t = 0.999` seconds the
fractional part rounds to 100 centiseconds, which is printed as the
three-digit field `100` with no carry into the seconds, giving
`0:00:00.100`.  (The one-second mark should render as `0:00:01.00`.) -/
theorem C2_fmt_time_centisecond_overflow :
    fmt_time (999/1000) = ("0:00:00.100").toList
      ∧ ((fmt_time (999/1000)).reverse.takeWhile (fun c => c ≠ '.')).length = 3 := by
  constructor
  · with_unfolding_all decide
  · with_unfolding_all decide

/-! ### Claim C5: pitch colour bands -/

/-- **C5** — `_pitch_to_hex` realises exactly the fixed bands:
`[8, ∞) → 33CCFF`, `[6, 8) → 55E0FF`, `[4, 6) → 77F5FF`,
`(-∞, -8] → 7777FF`, `(-8, -6] → 8890FF`, `(-6, -4] → 99AAFF`, and every
value strictly between `-4` and `4` — as well as an absent value — yields
no colour. -/
theorem C5_pitch_bands (x : ℚ) :
    pitch_to_hex none = none
      ∧ (8 ≤ x → pitch_to_hex (some x) = some (("33CCFF").toList))
      ∧ (6 ≤ x → x < 8 → pitch_to_hex (some x) = some (("55E0FF").toList))
      ∧ (4 ≤ x → x < 6 → pitch_to_hex (some x) = some (("77F5FF").toList))
      ∧ (x ≤ -8 → pitch_to_hex (some x) = some (("7777FF").toList))
      ∧ (-8 < x → x ≤ -6 → pitch_to_hex (some x) = some (("8890FF").toList))
      ∧ (-6 < x → x ≤ -4 → pitch_to_hex (some x) = some (("99AAFF").toList))
      ∧ (-4 < x → x < 4 → pitch_to_hex (some x) = none) := by
  have hdef : pitch_to_hex (some x)
      = (if 8 ≤ x then some (("33CCFF").toList)
        else if 6 ≤ x then some (("55E0FF").toList)
        else if 4 ≤ x then some (("77F5FF").toList)
        else if x ≤ -8 then some (("7777FF").toList)
        else if x ≤ -6 then some (("8890FF").toList)
        else if x ≤ -4 then some (("99AAFF").toList)
        else none) := rfl
  rw [hdef]
  refine ⟨rfl, ?_, ?_, ?_, ?_, ?_, ?_, ?_⟩
  · intro h1
    rw [if_pos h1]
  · intro h1 h2
    rw [if_neg (by linarith), if_pos h1]
  · intro h1 h2
    rw [if_neg (by linarith), if_neg (by linarith), if_pos h1]
  · intro h1
    rw [if_neg (by linarith), if_neg (by linarith), if_neg (by linarith),
      if_pos h1]
  · intro h1 h2
    rw [if_neg (by linarith), if_neg (by linarith), if_neg (by linarith),
      if_neg (by linarith), if_pos h2]
  · intro h1 h2
    rw [if_neg (by linarith), if_neg (by linarith), if_neg (by linarith),
      if_neg (by linarith), if_neg (by linarith), if_pos h2]
  · intro h1 h2
    rw [if_neg (by linarith), if_neg (by linarith), if_neg (by linarith),
      if_neg (by linarith), if_neg (by linarith), if_neg (by linarith)]

theorem C5_pitch_bands_witness :
    pitch_to_hex (some 9) = some (("33CCFF").toList)
      ∧ pitch_to_hex (some 7) = some (("55E0FF").toList)
      ∧ pitch_to_hex (some 5) = some (("77F5FF").toList)
      ∧ pitch_to_hex (some (-9)) = some (("7777FF").toList)
      ∧ pitch_to_hex (some (-7)) = some (("8890FF").toList)
      ∧ pitch_to_hex (some (-5)) = some (("99AAFF").toList)
      ∧ pitch_to_hex (some 0) = none ∧ pitch_to_hex none = none :=
  ⟨(C5_pitch_bands 9).2.1 (by norm_num),
    (C5_pitch_bands 7).2.2.1 (by norm_num) (by norm_num),
    (C5_pitch_bands 5).2.2.2.1 (by norm_num) (by norm_num),
    (C5_pitch_bands (-9)).2.2.2.2.1 (by norm_num),
    (C5_pitch_bands (-7)).2.2.2.2.2.1 (by norm_num) (by norm_num),
    (C5_pitch_bands (-5)).2.2.2.2.2.2.1 (by norm_num) (by norm_num),
    (C5_pitch_bands 0).2.2.2.2.2.2.2 (by norm_num) (by norm_num),
    (C5_pitch_bands 0).1⟩

/-! ### Claim C7: duration estimate -/

/-- **C7** — when a unit's audio duration cannot be determined, the duration
is the clamp of `text_length / 7` into `[0.6, 8]` seconds; in particular a
unit of text length 42 gets exactly 6 seconds. -/
theorem C7_duration_estimate :
    (∀ text : List Char,
        unitDuration none text = spec_clamp ((text.length : ℚ) / 7) (6/10) 8)
      ∧ unitDuration none (List.replicate 42 'a') = 6 := by
  constructor
  · intro text
    unfold unitDuration spec_clamp pyMax pyMin
    simp only [min_def, max_def]
    split_ifs <;> linarith
  · with_unfolding_all decide

/-! ### Claim C6: empty-input short circuit -/

theorem generate_empty_def (extract : List Char → Option ℚ)
    (breath : List Char → List (List Char))
    (to_ssml : List (List Char) → List (List Char))
    (synth : List (List Char) → List (List Char))
    (measure : List Char → Option ℚ)
    (script_text ass_path : List Char) (strip : Bool)
    (pre : Option (List (List Char)))
    (h : derive_clause_lines pre (breath script_text) = []) :
    generate_subtitle_from_script extract breath to_ssml synth measure
        script_text ass_path strip pre
      = { segments := [], chunk_paths := [], ass_path := ass_path,
          effects := if pre_split_truthy pre then [] else [PipeEffect.callBreath] } := by
  unfold generate_subtitle_from_script
  rw [h]
  rfl

/-- **C6** — if clause-unit derivation yields zero units,
`generate_subtitle_from_script` returns an empty segment list, an empty
audio-path list and the unchanged subtitle path, with no file or directory
effect and no SSML-conversion, synthesis or mixing collaborator call (the
trace holds at most the clause-breaker call that produced the units). -/
theorem C6_empty_short_circuit (extract : List Char → Option ℚ)
    (breath : List Char → List (List Char))
    (to_ssml : List (List Char) → List (List Char))
    (synth : List (List Char) → List (List Char))
    (measure : List Char → Option ℚ)
    (script_text ass_path : List Char) (strip : Bool)
    (pre : Option (List (List Char)))
    (h : derive_clause_lines pre (breath script_text) = []) :
    (generate_subtitle_from_script extract breath to_ssml synth measure
        script_text ass_path strip pre).segments = []
      ∧ (generate_subtitle_from_script extract breath to_ssml synth measure
          script_text ass_path strip pre).chunk_paths = []
      ∧ (generate_subtitle_from_script extract breath to_ssml synth measure
          script_text ass_path strip pre).ass_path = ass_path
      ∧ ∀ e ∈ (generate_subtitle_from_script extract breath to_ssml synth
          measure script_text ass_path strip pre).effects,
          e = PipeEffect.callBreath := by
  rw [generate_empty_def extract breath to_ssml synth measure script_text
    ass_path strip pre h]
  refine ⟨rfl, rfl, rfl, ?_⟩
  intro e he
  simp only at he
  split at he
  · cases he
  · simpa using he

theorem C6_empty_short_circuit_witness :
    (generate_subtitle_from_script (fun _ => none) (fun _ => []) id id
        (fun _ => none) [] (['p']) true none).segments = []
      ∧ (generate_subtitle_from_script (fun _ => none) (fun _ => []) id id
          (fun _ => none) [] (['p']) true none).chunk_paths = []
      ∧ (generate_subtitle_from_script (fun _ => none) (fun _ => []) id id
          (fun _ => none) [] (['p']) true none).ass_path = ['p'] := by
  have h := C6_empty_short_circuit (fun _ => none) (fun _ => []) id id
    (fun _ => none) [] (['p']) true none rfl
  exact ⟨h.1, h.2.1, h.2.2.1⟩

/-! ### Claim C10: emitter does not mutate its input -/

/-- **C10** — `generate_ass_subtitle` leaves its segment-list input
unchanged (the translation threads the list through every statement of the
loop, which only reads `seg` fields), returns the given path, and its only
file write is at `ass_path`. -/
theorem C10_emit_frame (extract : List Char → Option ℚ)
    (segments : List Segment) (ass_path template_name : List Char)
    (strip : Bool) (max_chars max_lines : Nat) (p c : List Char)
    (h : PipeEffect.writeE p c
      ∈ (generate_ass_subtitle extract segments ass_path template_name
          strip max_chars max_lines).effects) :
    p = ass_path
      ∧ (generate_ass_subtitle extract segments ass_path template_name
          strip max_chars max_lines).segmentsAfter = segments
      ∧ (generate_ass_subtitle extract segments ass_path template_name
          strip max_chars max_lines).ret = ass_path := by
  refine ⟨?_, rfl, rfl⟩
  simp only [generate_ass_subtitle, List.mem_cons, List.mem_singleton] at h
  rcases h with h | h | h
  · cases h
  · exact (PipeEffect.writeE.injEq _ _ _ _).mp h |>.1
  · cases h

theorem C10_emit_frame_witness :
    (['a'] : List Char) = ['a']
      ∧ (generate_ass_subtitle (fun _ => none) [] ['a'] [] true 14 2).segmentsAfter = []
      ∧ (generate_ass_subtitle (fun _ => none) [] ['a'] [] true 14 2).ret = ['a'] :=
  C10_emit_frame (fun _ => none) [] ['a'] [] true 14 2 ['a']
    (assFileContent (fun _ => none) [] [] true 14 2)
    (by simp [generate_ass_subtitle])

/-! ### Claim C9: keyword distribution -/

theorem flatMap_replicate_length :
    ∀ (ks : List (List Char)) (cs : List Nat), ks.length = cs.length →
      ((ks.zip cs).flatMap fun kc => List.replicate kc.2 kc.1).length = cs.sum := by
  intro ks
  induction ks with
  | nil =>
    intro cs h
    cases cs with
    | nil => rfl
    | cons c cs => simp at h
  | cons k ks ih =>
    intro cs h
    cases cs with
    | nil => simp at h
    | cons c cs =>
      rw [List.zip_cons_cons, List.flatMap_cons, List.length_append,
        List.length_replicate, List.sum_cons, ih cs (by simpa using h)]

theorem range_count_sum (r b : Nat) :
    ∀ s : Nat,
      ((List.range s).map (fun i => b + if i < r then 1 else 0)).sum
        = s * b + min r s := by
  intro s
  induction s with
  | zero => simp
  | succ s ih =>
    rw [List.range_succ, List.map_append, List.sum_append]
    simp only [List.map_cons, List.map_nil, List.sum_cons, List.sum_nil, ih]
    rw [Nat.add_mul, Nat.one_mul]
    by_cases h : s < r
    · rw [if_pos h]
      omega
    · rw [if_neg h]
      omega

/-- **C9** — `_distribute_sentence_keywords_to_segments` always returns
exactly `n_segments` entries, each drawn from the keyword list, or the fixed
placeholder `"abstract background"` when the keyword list is empty. -/
theorem C9_distribute_length_mem (keywords : List (List Char)) (n : Nat) :
    (distribute_sentence_keywords_to_segments keywords n).length = n
      ∧ ∀ x ∈ distribute_sentence_keywords_to_segments keywords n,
          (keywords = [] ∧ x = ("abstract background").toList)
            ∨ x ∈ keywords := by
  by_cases hn : n = 0
  · rw [hn]
    unfold distribute_sentence_keywords_to_segments
    rw [if_pos rfl]
    exact ⟨rfl, fun x hx => by cases hx⟩
  · by_cases hk : keywords.isEmpty
    · unfold distribute_sentence_keywords_to_segments
      rw [if_neg hn, if_pos hk]
      constructor
      · exact List.length_replicate n _
      · intro x hx
        exact Or.inl ⟨List.isEmpty_iff.mp hk, List.eq_of_mem_replicate hx⟩
    · have hkne : keywords ≠ [] := fun hc => hk (by rw [hc]; rfl)
      have hlen1 : 1 ≤ keywords.length := by
        cases keywords with
        | nil => cases hkne rfl
        | cons a t => simp
      have hcnt : max 1 keywords.length = keywords.length := by omega
      have hexp :
          ((keywords.zip ((List.range (max 1 keywords.length)).map
              (fun i => n / max 1 keywords.length
                + if i < n % max 1 keywords.length then 1 else 0))).flatMap
            fun kc => List.replicate kc.2 kc.1).length = n := by
        rw [flatMap_replicate_length _ _
          (by rw [List.length_map, List.length_range, hcnt]),
          range_count_sum]
        have hrem : n % max 1 keywords.length < max 1 keywords.length :=
          Nat.mod_lt n (by omega)
        have := Nat.div_add_mod n (max 1 keywords.length)
        omega
      unfold distribute_sentence_keywords_to_segments
      rw [if_neg hn, if_neg (by simpa using hk)]
      rw [if_neg (by omega), if_neg (by omega)]
      constructor
      · exact hexp
      · intro x hx
        rcases List.mem_flatMap.mp hx with ⟨kc, hkc, hxr⟩
        have hx1 := List.eq_of_mem_replicate hxr
        have hk1 := (List.of_mem_zip hkc).1
        rw [hx1]
        exact Or.inr hk1

theorem C9_distribute_length_mem_witness :
    (distribute_sentence_keywords_to_segments [('x' : Char) :: []] 3).length = 3
      ∧ (([('x' : Char) :: []] : List (List Char)) = []
          ∧ ('x' : Char) :: [] = ("abstract background").toList
        ∨ ('x' : Char) :: [] ∈ [('x' : Char) :: []]) :=
  ⟨(C9_distribute_length_mem [('x' : Char) :: []] 3).1,
    (C9_distribute_length_mem [('x' : Char) :: []] 3).2 (('x' : Char) :: [])
      (by decide)⟩

end Perfecto
